import Mathlib

/-!
Verification of the family-relationship knowledge base implemented in
`family_chatbot.py`.  The chatbot keeps three dynamic Prolog predicates
(`parent/2`, `male/1`, `female/1`) and a fixed set of derivation rules
(`load_hardcoded_rules`).  Assertions go through
`process_input` → `check_contradiction` → `add_fact`.

The embedding below models:
  * the fact store as three lists (Prolog `assertz` appends a clause, so
    duplicates are possible and clause order is kept);
  * each derived relation as a boolean function following the clause of
    `load_hardcoded_rules` literally (including the variable slip in the
    `grandmother` rule);
  * the recursive `ancestor` rule both as an inductive predicate (the
    Prolog least-model semantics) and as a fuel-bounded evaluator, proved
    equivalent below;
  * `check_contradiction`, `add_fact` and the statement branch of
    `process_input` as state-passing functions.  The names reaching these
    functions are already lowercase (`parse_statement` lowercases every
    captured group), so the extra `.lower()` calls in the source are the
    identity and are not repeated here.  The interactive `input()` prompt
    of the `siblings` branch is modelled by an extra `Option String`
    argument: `some cp` means the user answered "y" and supplied the
    common parent name `cp`, `none` means no usable answer.
  * a Python exception escaping `process_input` (the tuple-unpacking
    `ValueError` in `check_contradiction`) as a `none` reply with the
    store untouched; the blanket `except` inside `add_fact` (which turns
    the aunt branch's `NameError` into an error string) as the
    `Reply.addError` result.
-/

namespace FamilyBot

/-- The fact store: the clauses of the three dynamic predicates, in
assertion order.  `assertz` appends and never deduplicates. -/
structure KB where
  parent : List (String × String)
  male : List String
  female : List String
deriving DecidableEq, Repr

/-- The relation tokens produced by `parse_statement` (its pattern-table
keys).  The token `parent` never occurs here: `parse_statement` has no
pattern for it, so the `relation == "parent"` checks of
`check_contradiction` are unreachable and are not modelled. -/
inductive Rel where
  | mother | father | child | daughter | son
  | sister | brother | siblings
  | grandmother | grandfather | uncle | aunt
  | parents_of | children_of
deriving DecidableEq, Repr

/-- The distinct reply strings of `add_fact`: `learned` stands for
"OK! I learned something.", `impossible` for "That's impossible!" and
`addError` for the "Error adding fact: ..." string produced when the
blanket `except` catches an exception. -/
inductive Reply where
  | learned | impossible | addError
deriving DecidableEq, Repr

/-- `assertz parent(p, c)`. -/
def addParent (kb : KB) (p c : String) : KB :=
  { kb with parent := kb.parent ++ [(p, c)] }

/-- `assertz male(m)`. -/
def addMale (kb : KB) (m : String) : KB :=
  { kb with male := kb.male ++ [m] }

/-- `assertz female(f)`. -/
def addFemale (kb : KB) (f : String) : KB :=
  { kb with female := kb.female ++ [f] }

/-- Boolean query `parent(p, c)` (both arguments bound). -/
def parentB (kb : KB) (p c : String) : Bool :=
  decide ((p, c) ∈ kb.parent)

/-- Boolean query `male(m)`. -/
def maleB (kb : KB) (m : String) : Bool :=
  decide (m ∈ kb.male)

/-- Boolean query `female(f)`. -/
def femaleB (kb : KB) (f : String) : Bool :=
  decide (f ∈ kb.female)

/-- The solution list of `parent(X, c)`: one binding per matching clause,
duplicates included, in clause order (what `list(prolog.query(...))`
returns in `check_contradiction` and in the `siblings` branch). -/
def parentsOf (kb : KB) (c : String) : List String :=
  (kb.parent.filter (fun e => decide (e.2 = c))).map Prod.fst

/-- Rule `child(C,P) :- parent(P,C)`. -/
def childB (kb : KB) (c p : String) : Bool :=
  parentB kb p c

/-- Rule `son(S,P) :- child(S,P), male(S)`. -/
def sonB (kb : KB) (s p : String) : Bool :=
  childB kb s p && maleB kb s

/-- Rule `daughter(D,P) :- child(D,P), female(D)`. -/
def daughterB (kb : KB) (d p : String) : Bool :=
  childB kb d p && femaleB kb d

/-- Rule `sibling(X,Y) :- parent(P,X), parent(P,Y), X \x5c= Y`. -/
def siblingB (kb : KB) (x y : String) : Bool :=
  kb.parent.any (fun e => decide (e.2 = x) && parentB kb e.1 y) && decide (x ≠ y)

/-- Rule `brother(B,Sib) :- sibling(B,Sib), male(B)`. -/
def brotherB (kb : KB) (b s : String) : Bool :=
  siblingB kb b s && maleB kb b

/-- Rule `sister(S,Sib) :- sibling(S,Sib), female(S)`. -/
def sisterB (kb : KB) (s sib : String) : Bool :=
  siblingB kb s sib && femaleB kb s

/-- Rule `grandparent(GP,C) :- parent(GP,P), parent(P,C)`. -/
def grandparentB (kb : KB) (gp c : String) : Bool :=
  kb.parent.any (fun e => decide (e.1 = gp) && parentB kb e.2 c)

/-- Rule `grandfather(GF,C) :- grandparent(GF,C), male(GF)`. -/
def grandfatherB (kb : KB) (gf c : String) : Bool :=
  grandparentB kb gf c && maleB kb gf

/-- Satisfiability of `grandparent(GF, c)` with `GF` free: does `c` have
any grandparent at all. -/
def hasGrandparentB (kb : KB) (c : String) : Bool :=
  kb.parent.any (fun e => parentB kb e.2 c)

/-- Rule `grandmother(GM,C) :- grandparent(GF,C), female(GM)` — exactly as
written in `load_hardcoded_rules` (line 135): the body constrains a fresh
variable `GF`, not the head variable `GM`, so the rule holds whenever `C`
has some grandparent and `GM` is any female. -/
def grandmotherB (kb : KB) (gm c : String) : Bool :=
  hasGrandparentB kb c && femaleB kb gm

/-- The least-model semantics of the recursive rules
`ancestor(A,D) :- parent(A,D)` and
`ancestor(A,D) :- parent(A,X), ancestor(X,D)`. -/
inductive Ancestor (kb : KB) : String → String → Prop where
  | base {a d : String} : (a, d) ∈ kb.parent → Ancestor kb a d
  | step {a x d : String} : (a, x) ∈ kb.parent → Ancestor kb x d → Ancestor kb a d

/-- Fuel-bounded evaluator for the `ancestor` rules: `fuel n` explores
parent-paths of length at most `n`. -/
def ancestorFuel (kb : KB) : Nat → String → String → Bool
  | 0, _, _ => false
  | n + 1, a, d =>
      parentB kb a d || kb.parent.any (fun e => decide (e.1 = a) && ancestorFuel kb n e.2 d)

/-- Boolean query `ancestor(a, d)`: paths never need more edges than the
store holds (proved in `ancestor_iff_ancestorB` below). -/
def ancestorB (kb : KB) (a d : String) : Bool :=
  ancestorFuel kb kb.parent.length a d

/-- Modelled from the spec: the `descendant` relation queried by
`check_contradiction` is defined only in `relationships.pl`, which is not
among the sources (the hardcoded fallback rules omit it); spec §4.2 states
"`descendant` is its inverse" of `ancestor`. -/
def descendantB (kb : KB) (x y : String) : Bool :=
  ancestorB kb y x

/-- Rule `uncle(U,N) :- parent(P,N), sibling(U,P), male(U)`. -/
def uncleB (kb : KB) (u n : String) : Bool :=
  kb.parent.any (fun e => decide (e.2 = n) && siblingB kb u e.1) && maleB kb u

/-- Rule `aunt(A,N) :- parent(P,N), sibling(A,P), female(A)`. -/
def auntB (kb : KB) (a n : String) : Bool :=
  kb.parent.any (fun e => decide (e.2 = n) && siblingB kb a e.1) && femaleB kb a

/-- Satisfiability of `father(X, c)` with `X` free. -/
def hasFatherB (kb : KB) (c : String) : Bool :=
  kb.parent.any (fun e => decide (e.2 = c) && maleB kb e.1)

/-- Satisfiability of `mother(X, c)` with `X` free. -/
def hasMotherB (kb : KB) (c : String) : Bool :=
  kb.parent.any (fun e => decide (e.2 = c) && femaleB kb e.1)

/-- The disjunction of every contradiction appended by
`check_contradiction` (the function returns `bool(contradictions)`, i.e.
whether at least one check fired).  The checks guarded by
`relation == "parent"` are omitted: that token never reaches the checker
(see `Rel`). -/
def hasContradiction (kb : KB) (r : Rel) (x y : String) : Bool :=
  decide (x = y)
  || (decide (r = .father) || decide (r = .mother)) && decide (1 < (parentsOf kb y).length)
  || decide (r = .child) && childB kb y x
  || decide (r = .father) && hasFatherB kb y
  || decide (r = .mother) && hasMotherB kb y
  || (decide (r = .father) || decide (r = .mother))
      && (childB kb x y || siblingB kb x y || descendantB kb x y
          || uncleB kb x y || auntB kb x y)
  || decide (r = .father) && femaleB kb x
  || decide (r = .mother) && maleB kb x
  || (decide (r = .uncle) || decide (r = .aunt))
      && (parentB kb x y || grandparentB kb x y || siblingB kb x y)
  || (decide (r = .brother) || decide (r = .sister)) && (parentB kb x y || childB kb x y)
  || (decide (r = .son) || decide (r = .daughter)) && parentB kb x y
  || decide (r = .son) && femaleB kb x
  || decide (r = .daughter) && maleB kb x

/-- `check_contradiction(relation, names)`: the statement `x, y = names`
raises a `ValueError` unless `names` has exactly two entries — modelled by
`none`.  Otherwise the boolean contradiction verdict is returned. -/
def check_contradiction (kb : KB) (r : Rel) (names : List String) : Option Bool :=
  match names with
  | [x, y] => some (hasContradiction kb r x y)
  | _ => none

/-- `add_fact(rel_type, names)` with its state effect.  Branches mirror
the source: every accepted branch performs its `assertz` calls in source
order; the `aunt` branch evaluates the `aunt` query and then hits the
undefined variable `uncle` (a `NameError` swallowed by the blanket
`except`), committing nothing; unpacking failures are likewise swallowed
and reported as `addError`. -/
def add_fact (kb : KB) (r : Rel) (names : List String) (supp : Option String) : Reply × KB :=
  match r, names with
  | .mother, [m, c] => (.learned, addFemale (addParent kb m c) m)
  | .father, [f, c] => (.learned, addMale (addParent kb f c) f)
  | .child, [c, p] => (.learned, addParent kb p c)
  | .daughter, [d, p] => (.learned, addFemale (addParent kb p d) d)
  | .son, [s, p] => (.learned, addMale (addParent kb p s) s)
  | .sister, [s, _] => (.learned, addFemale kb s)
  | .brother, [b, _] => (.learned, addMale kb b)
  | .siblings, [s1, s2] =>
      if (parentsOf kb s1).any (fun a => decide (a ∈ parentsOf kb s2)) then
        (.learned, kb)
      else if (parentsOf kb s1).length = 1 ∨ (parentsOf kb s2).length = 1 then
        match supp with
        | some cp => (.learned, addParent (addParent kb cp s1) cp s2)
        | none => (.impossible, kb)
      else (.impossible, kb)
  | .grandmother, [g, c] =>
      if grandparentB kb g c then (.learned, addFemale kb g) else (.impossible, kb)
  | .grandfather, [g, c] =>
      if grandparentB kb g c then (.learned, addMale kb g) else (.impossible, kb)
  | .uncle, [u, n] =>
      if uncleB kb u n then (.learned, addMale kb u) else (.impossible, kb)
  | .aunt, [a, n] =>
      if auntB kb a n then (.addError, kb) else (.impossible, kb)
  | .parents_of, [p1, p2, c] => (.learned, addParent (addParent kb p1 c) p2 c)
  | .children_of, ns =>
      match ns.getLast? with
      | some p => (.learned, ns.dropLast.foldl (fun k c => addParent k p c) kb)
      | none => (.addError, kb)
  | _, _ => (.addError, kb)

/-- The statement branch of `process_input`, after `parse_statement` has
produced `(rel_type, names)`: run `check_contradiction`; on a
contradiction answer "That's impossible!" without touching the store,
otherwise run `add_fact`.  A `none` reply is the unpacking exception
escaping `process_input` (caught only by the REPL loop); no fact is
committed in that case. -/
def process_input (kb : KB) (r : Rel) (names : List String) (supp : Option String) :
    Option Reply × KB :=
  match check_contradiction kb r names with
  | none => (none, kb)
  | some true => (some .impossible, kb)
  | some false =>
      let res := add_fact kb r names supp
      (some res.1, res.2)

/-- A single base fact, for stating the compound-insertion (atomicity)
property of spec §4.4. -/
inductive Fact where
  | par (p c : String)
  | mal (m : String)
  | fem (f : String)
deriving DecidableEq, Repr

/-- Insert one base fact. -/
def insertFact (kb : KB) : Fact → KB
  | .par p c => addParent kb p c
  | .mal m => addMale kb m
  | .fem f => addFemale kb f

/-- Insert a list of base facts in order. -/
def insertFacts (kb : KB) (fs : List Fact) : KB :=
  fs.foldl insertFact kb

/-- The complete compound insertion implied by each relation (spec §4.4:
e.g. `mother(M,C)` implies both `parent(M,C)` and `female(M)`), used to
state that an accepted assertion commits all of its implied base facts and
a failed one commits none. -/
def implied_facts (kb : KB) (r : Rel) (names : List String) (supp : Option String) :
    List Fact :=
  match r, names with
  | .mother, [m, c] => [.par m c, .fem m]
  | .father, [f, c] => [.par f c, .mal f]
  | .child, [c, p] => [.par p c]
  | .daughter, [d, p] => [.par p d, .fem d]
  | .son, [s, p] => [.par p s, .mal s]
  | .sister, [s, _] => [.fem s]
  | .brother, [b, _] => [.mal b]
  | .siblings, [s1, s2] =>
      if (parentsOf kb s1).any (fun a => decide (a ∈ parentsOf kb s2)) then []
      else if (parentsOf kb s1).length = 1 ∨ (parentsOf kb s2).length = 1 then
        match supp with
        | some cp => [.par cp s1, .par cp s2]
        | none => []
      else []
  | .grandmother, [g, _] => [.fem g]
  | .grandfather, [g, _] => [.mal g]
  | .uncle, [u, _] => [.mal u]
  | .aunt, _ => []
  | .parents_of, [p1, p2, c] => [.par p1 c, .par p2 c]
  | .children_of, ns =>
      match ns.getLast? with
      | some p => ns.dropLast.map (fun c => Fact.par p c)
      | none => []
  | _, _ => []

/-- Parent-paths, spelled out: `IsWalk kb a l d` says the node sequence
`a :: l ++ [d]` steps through `parent` edges. -/
def IsWalk (kb : KB) : String → List String → String → Prop
  | a, [], d => (a, d) ∈ kb.parent
  | a, x :: l, d => (a, x) ∈ kb.parent ∧ IsWalk kb x l d

/-- The list of edges a walk uses. -/
def walkEdges : String → List String → String → List (String × String)
  | a, [], d => [(a, d)]
  | a, x :: l, d => (a, x) :: walkEdges x l d

/-- Unfolding lemma for `IsWalk` on the empty interior. -/
theorem isWalk_nil {kb : KB} {a d : String} : IsWalk kb a [] d ↔ (a, d) ∈ kb.parent :=
  Iff.rfl

/-- Unfolding lemma for `IsWalk` on a cons interior. -/
theorem isWalk_cons {kb : KB} {a x d : String} {l : List String} :
    IsWalk kb a (x :: l) d ↔ (a, x) ∈ kb.parent ∧ IsWalk kb x l d :=
  Iff.rfl

/-- More fuel never loses `ancestor` answers. -/
theorem ancestorFuel_mono {kb : KB} :
    ∀ {n m : Nat} {a d : String}, n ≤ m → ancestorFuel kb n a d = true →
      ancestorFuel kb m a d = true := by
  intro n
  induction n with
  | zero => intro m a d _ h; simp [ancestorFuel] at h
  | succ k ih =>
    intro m a d hle h
    cases m with
    | zero => omega
    | succ j =>
      simp only [ancestorFuel, Bool.or_eq_true, Bool.and_eq_true, List.any_eq_true] at h ⊢
      rcases h with h | ⟨e, he, h1, h2⟩
      · exact Or.inl h
      · exact Or.inr ⟨e, he, h1, ih (by omega) h2⟩

/-- A positive fuel-bounded answer is a genuine `ancestor` derivation. -/
theorem ancestorFuel_sound {kb : KB} :
    ∀ {n : Nat} {a d : String}, ancestorFuel kb n a d = true → Ancestor kb a d := by
  intro n
  induction n with
  | zero => intro a d h; simp [ancestorFuel] at h
  | succ k ih =>
    intro a d h
    simp only [ancestorFuel, Bool.or_eq_true, Bool.and_eq_true, List.any_eq_true,
      decide_eq_true_eq, parentB] at h
    rcases h with h | ⟨e, he, h1, h2⟩
    · exact Ancestor.base h
    · refine Ancestor.step ?_ (ih h2)
      rw [← h1]
      simpa using he

/-- Every `ancestor` derivation is found by some amount of fuel. -/
theorem ancestor_fuel_exists {kb : KB} {a d : String} (h : Ancestor kb a d) :
    ∃ n, ancestorFuel kb n a d = true := by
  induction h with
  | base hmem => exact ⟨1, by simp [ancestorFuel, parentB, hmem]⟩
  | step hmem _ ih =>
    obtain ⟨n, hn⟩ := ih
    refine ⟨n + 1, ?_⟩
    simp only [ancestorFuel, Bool.or_eq_true, Bool.and_eq_true, List.any_eq_true]
    exact Or.inr ⟨(_, _), hmem, by simp, hn⟩

/-- A positive fuel-bounded answer yields an explicit parent-path within
the fuel bound. -/
theorem ancestorFuel_walk {kb : KB} :
    ∀ {n : Nat} {a d : String}, ancestorFuel kb n a d = true →
      ∃ l, IsWalk kb a l d ∧ l.length + 1 ≤ n := by
  intro n
  induction n with
  | zero => intro a d h; simp [ancestorFuel] at h
  | succ k ih =>
    intro a d h
    simp only [ancestorFuel, Bool.or_eq_true, Bool.and_eq_true, List.any_eq_true,
      decide_eq_true_eq, parentB] at h
    rcases h with h | ⟨e, he, h1, h2⟩
    · exact ⟨[], h, by simp only [List.length_nil]; omega⟩
    · obtain ⟨l, hw, hl⟩ := ih h2
      refine ⟨e.2 :: l, ⟨?_, hw⟩, by simp; omega⟩
      rw [← h1]
      simpa using he

/-- A parent-path of interior length `k` is found with fuel `k + 1`. -/
theorem walk_ancestorFuel {kb : KB} :
    ∀ {l : List String} {a d : String}, IsWalk kb a l d →
      ancestorFuel kb (l.length + 1) a d = true := by
  intro l
  induction l with
  | nil =>
    intro a d h
    have hm : (a, d) ∈ kb.parent := h
    simp [ancestorFuel, parentB, hm]
  | cons x lt ih =>
    intro a d h
    rw [show (x :: lt).length + 1 = (lt.length + 1) + 1 from by simp]
    rw [ancestorFuel]
    simp only [Bool.or_eq_true, Bool.and_eq_true, List.any_eq_true]
    exact Or.inr ⟨(a, x), h.1, by simp, ih h.2⟩

/-- Dropping a prefix of a walk up to an interior node keeps a walk. -/
theorem walk_suffix {kb : KB} :
    ∀ {l1 : List String} {u : String} {l2 : List String} {a d : String},
      IsWalk kb a (l1 ++ u :: l2) d → IsWalk kb u l2 d := by
  intro l1
  induction l1 with
  | nil => intro u l2 a d h; exact h.2
  | cons x l1 ih => intro u l2 a d h; exact ih h.2

/-- Any walk can be shortened to one that repeats no node (the classic
path-from-walk argument), staying inside the original interior nodes. -/
theorem walk_shorten {kb : KB} :
    ∀ (n : Nat) {a : String} {l : List String} {d : String}, l.length ≤ n →
      IsWalk kb a l d →
      ∃ l2, IsWalk kb a l2 d ∧ (a :: l2).Nodup ∧ l2 ⊆ l := by
  intro n
  induction n with
  | zero =>
    intro a l d hlen hw
    have hnil : l = [] := List.eq_nil_of_length_eq_zero (Nat.le_zero.mp hlen)
    subst hnil
    exact ⟨[], hw, by simp, by simp⟩
  | succ k ih =>
    intro a l d hlen hw
    by_cases hnd : (a :: l).Nodup
    · exact ⟨l, hw, hnd, List.Subset.refl l⟩
    · by_cases ha : a ∈ l
      · obtain ⟨s, t, rfl⟩ := List.append_of_mem ha
        have hw2 : IsWalk kb a t d := walk_suffix hw
        have hlen2 : t.length ≤ k := by
          simp [List.length_append] at hlen; omega
        obtain ⟨l3, hw3, hnd3, hsub3⟩ := ih hlen2 hw2
        exact ⟨l3, hw3, hnd3, fun z hz =>
          List.mem_append_right s (List.mem_cons_of_mem a (hsub3 hz))⟩
      · cases l with
        | nil => exact absurd (by simp) hnd
        | cons x lt =>
          obtain ⟨h1, h2⟩ := hw
          have hlen2 : lt.length ≤ k := by simp at hlen; omega
          obtain ⟨l3, hw3, hnd3, hsub3⟩ := ih hlen2 h2
          have hax : a ≠ x := fun he => ha (he ▸ List.mem_cons_self x lt)
          have hal3 : a ∉ l3 := fun hc =>
            ha (List.mem_cons_of_mem x (hsub3 hc))
          refine ⟨x :: l3, ⟨h1, hw3⟩, ?_, ?_⟩
          · exact List.nodup_cons.mpr ⟨by simp [hax, hal3], hnd3⟩
          · intro z hz
            rcases List.mem_cons.mp hz with rfl | hz2
            · exact List.mem_cons_self _ _
            · exact List.mem_cons_of_mem x (hsub3 hz2)

/-- The edges of a walk all lie in the store. -/
theorem walkEdges_subset {kb : KB} :
    ∀ {l : List String} {a d : String}, IsWalk kb a l d →
      walkEdges a l d ⊆ kb.parent := by
  intro l
  induction l with
  | nil =>
    intro a d h z hz
    simp [walkEdges] at hz
    subst hz
    exact h
  | cons x lt ih =>
    intro a d h z hz
    simp [walkEdges] at hz
    rcases hz with rfl | hz
    · exact h.1
    · exact ih h.2 hz

/-- The first components of a walk's edges are its non-final nodes. -/
theorem walkEdges_map_fst :
    ∀ (l : List String) (a d : String), (walkEdges a l d).map Prod.fst = a :: l := by
  intro l
  induction l with
  | nil => intro a d; simp [walkEdges]
  | cons x lt ih => intro a d; simp [walkEdges, ih]

/-- A walk with interior `l` uses `l.length + 1` edges. -/
theorem walkEdges_length :
    ∀ (l : List String) (a d : String), (walkEdges a l d).length = l.length + 1 := by
  intro l
  induction l with
  | nil => intro a d; simp [walkEdges]
  | cons x lt ih => intro a d; simp [walkEdges, ih]

/-- A node-repetition-free walk cannot use more edges than the store
holds. -/
theorem walk_length_le {kb : KB} {a : String} {l : List String} {d : String}
    (hw : IsWalk kb a l d) (hnd : (a :: l).Nodup) :
    l.length + 1 ≤ kb.parent.length := by
  have hedges : (walkEdges a l d).Nodup := by
    apply List.Nodup.of_map Prod.fst
    rw [walkEdges_map_fst]
    exact hnd
  have hlen := (List.subperm_of_subset hedges (walkEdges_subset hw)).length_le
  rw [walkEdges_length] at hlen
  exact hlen

/-- Completeness of the bounded evaluator: fuel `kb.parent.length`
suffices for every true `ancestor` fact. -/
theorem ancestor_complete {kb : KB} {a d : String} (h : Ancestor kb a d) :
    ancestorB kb a d = true := by
  obtain ⟨n, hn⟩ := ancestor_fuel_exists h
  obtain ⟨l, hw, _⟩ := ancestorFuel_walk hn
  obtain ⟨l2, hw2, hnd2, _⟩ := walk_shorten l.length (le_refl _) hw
  have hlen := walk_length_le hw2 hnd2
  exact ancestorFuel_mono hlen (walk_ancestorFuel hw2)

/-- The executable `ancestor` query agrees with the least-model
semantics of the recursive rule. -/
theorem ancestor_iff_ancestorB {kb : KB} {a d : String} :
    ancestorB kb a d = true ↔ Ancestor kb a d :=
  ⟨ancestorFuel_sound, ancestor_complete⟩

/-- C1: the spec claims that after any sequence of accepted assertions no
person is their own ancestor.  The code violates this: the `child`
relation is only checked against the direct reverse edge, so the three
statements "b is a child of a", "c is a child of b", "a is a child of c"
are all accepted from the empty store and commit the parent cycle
a → b → c → a, making `ancestor(a,a)` derivable. -/
theorem C1_acyclicity_violated :
    process_input ⟨[], [], []⟩ .child ["b", "a"] none =
      (some .learned, ⟨[("a", "b")], [], []⟩) ∧
    process_input ⟨[("a", "b")], [], []⟩ .child ["c", "b"] none =
      (some .learned, ⟨[("a", "b"), ("b", "c")], [], []⟩) ∧
    process_input ⟨[("a", "b"), ("b", "c")], [], []⟩ .child ["a", "c"] none =
      (some .learned, ⟨[("a", "b"), ("b", "c"), ("c", "a")], [], []⟩) ∧
    Ancestor ⟨[("a", "b"), ("b", "c"), ("c", "a")], [], []⟩ "a" "a" := by
  refine ⟨by decide, by decide, by decide, ?_⟩
  exact ancestorFuel_sound
    (show ancestorFuel ⟨[("a", "b"), ("b", "c"), ("c", "a")], [], []⟩ 3 "a" "a" = true
      from by decide)

/-- C2: atomicity of compound insertion — a rejected assertion leaves the
store untouched, and every call either leaves the store unchanged or
commits exactly the complete compound fact list implied by the relation;
no partial insertion is ever produced. -/
theorem C2_atomicity (kb : KB) (r : Rel) (names : List String) (supp : Option String) :
    (check_contradiction kb r names = some true →
      process_input kb r names supp = (some .impossible, kb)) ∧
    ((process_input kb r names supp).2 = kb ∨
      ((process_input kb r names supp).1 = some Reply.learned ∧
        (process_input kb r names supp).2 = insertFacts kb (implied_facts kb r names supp))) := by
  constructor
  · intro h
    simp [process_input, h]
  · cases names with
    | nil => exact Or.inl rfl
    | cons x t =>
      cases t with
      | nil => exact Or.inl rfl
      | cons y t2 =>
        cases t2 with
        | cons z t3 => exact Or.inl rfl
        | nil =>
          cases hhc : hasContradiction kb r x y with
          | true =>
            simp only [process_input, check_contradiction, hhc]
            exact Or.inl trivial
          | false =>
            simp only [process_input, check_contradiction, hhc]
            cases r with
            | mother => exact Or.inr ⟨rfl, rfl⟩
            | father => exact Or.inr ⟨rfl, rfl⟩
            | child => exact Or.inr ⟨rfl, rfl⟩
            | daughter => exact Or.inr ⟨rfl, rfl⟩
            | son => exact Or.inr ⟨rfl, rfl⟩
            | sister => exact Or.inr ⟨rfl, rfl⟩
            | brother => exact Or.inr ⟨rfl, rfl⟩
            | parents_of => exact Or.inl rfl
            | children_of => exact Or.inr ⟨rfl, rfl⟩
            | siblings =>
              simp only [add_fact, implied_facts]
              split
              · exact Or.inl rfl
              · split
                · cases supp with
                  | some cp => exact Or.inr ⟨rfl, rfl⟩
                  | none => exact Or.inl rfl
                · exact Or.inl rfl
            | grandmother =>
              simp only [add_fact, implied_facts]
              split
              · exact Or.inr ⟨rfl, rfl⟩
              · exact Or.inl rfl
            | grandfather =>
              simp only [add_fact, implied_facts]
              split
              · exact Or.inr ⟨rfl, rfl⟩
              · exact Or.inl rfl
            | uncle =>
              simp only [add_fact, implied_facts]
              split
              · exact Or.inr ⟨rfl, rfl⟩
              · exact Or.inl rfl
            | aunt =>
              simp only [add_fact, implied_facts]
              split
              · exact Or.inl rfl
              · exact Or.inl rfl

/-- Witness for C2 at a concrete input: a duplicate-mother assertion is
rejected with the store unchanged. -/
theorem C2_atomicity_witness :
    process_input ⟨[("m", "c")], [], ["m"]⟩ .mother ["m", "c"] none =
      (some .impossible, ⟨[("m", "c")], [], ["m"]⟩) :=
  (C2_atomicity _ _ _ _).1 (by decide)

/-- C3 counterexample: asserting `mother(m,c)` from the empty store is
accepted, but asserting the same fact a second time is answered
"That's impossible!", not accepted — re-assertion is not idempotent. -/
theorem C3_counterexample :
    (process_input ⟨[], [], []⟩ .mother ["m", "c"] none).1 = some .learned ∧
    (process_input (process_input ⟨[], [], []⟩ .mother ["m", "c"] none).2
      .mother ["m", "c"] none).1 = some .impossible := by decide

/-- C3 as amended: re-assertion is not uniformly accepted.  Re-asserting
a committed `mother` fact is rejected by the one-mother check with the
store unchanged, while re-asserting a committed `child` fact is accepted
again and appends a duplicate `parent` clause, growing the store. -/
theorem C3_amended :
    (∀ (kb : KB) (m c : String), parentB kb m c = true → femaleB kb m = true →
      process_input kb .mother [m, c] none = (some .impossible, kb)) ∧
    (∀ (kb : KB) (c p : String), c ≠ p → parentB kb c p = false →
      (process_input kb .child [c, p] none).1 = some .learned ∧
      (process_input kb .child [c, p] none).2.parent.length = kb.parent.length + 1) := by
  constructor
  · intro kb m c h1 h2
    have hm : hasMotherB kb c = true := by
      rw [hasMotherB, List.any_eq_true]
      exact ⟨(m, c), of_decide_eq_true h1, by simp [h2]⟩
    have hc : hasContradiction kb .mother m c = true := by
      simp [hasContradiction, hm]
    simp [process_input, check_contradiction, hc]
  · intro kb c p hcp h
    have hc : hasContradiction kb .child c p = false := by
      simp [hasContradiction, hcp, childB, h]
    simp [process_input, check_contradiction, hc, add_fact, addParent]

/-- Witness for C3's amended statement at a concrete input. -/
theorem C3_amended_witness :
    process_input ⟨[("m", "c")], [], ["m"]⟩ .mother ["m", "c"] none =
      (some .impossible, ⟨[("m", "c")], [], ["m"]⟩) :=
  C3_amended.1 _ "m" "c" (by decide) (by decide)

/-- C4 counterexample: the parent-cardinality check only guards
`father`/`mother` assertions.  Three `child` assertions giving `c` the
three parents a, b, d are all accepted, so an assertion that adds a third
parent edge is not always rejected. -/
theorem C4_counterexample :
    process_input ⟨[], [], []⟩ .child ["c", "a"] none =
      (some .learned, ⟨[("a", "c")], [], []⟩) ∧
    process_input ⟨[("a", "c")], [], []⟩ .child ["c", "b"] none =
      (some .learned, ⟨[("a", "c"), ("b", "c")], [], []⟩) ∧
    process_input ⟨[("a", "c"), ("b", "c")], [], []⟩ .child ["c", "d"] none =
      (some .learned, ⟨[("a", "c"), ("b", "c"), ("d", "c")], [], []⟩) ∧
    (parentsOf ⟨[("a", "c"), ("b", "c"), ("d", "c")], [], []⟩ "c").length = 3 := by
  decide

/-- C4 as amended: the cardinality checks apply to `father`/`mother`
assertions only — those are rejected (store unchanged) when the child
already has two or more recorded parent clauses, when a father is already
derivable (for `father`), or when a mother is already derivable (for
`mother`); other parent-adding relations are not cardinality-checked. -/
theorem C4_amended (kb : KB) (x y : String) :
    (1 < (parentsOf kb y).length →
      process_input kb .father [x, y] none = (some .impossible, kb) ∧
      process_input kb .mother [x, y] none = (some .impossible, kb)) ∧
    (hasFatherB kb y = true →
      process_input kb .father [x, y] none = (some .impossible, kb)) ∧
    (hasMotherB kb y = true →
      process_input kb .mother [x, y] none = (some .impossible, kb)) := by
  refine ⟨fun h => ⟨?_, ?_⟩, fun h => ?_, fun h => ?_⟩
  · have hc : hasContradiction kb .father x y = true := by
      simp [hasContradiction, h]
    simp [process_input, check_contradiction, hc]
  · have hc : hasContradiction kb .mother x y = true := by
      simp [hasContradiction, h]
    simp [process_input, check_contradiction, hc]
  · have hc : hasContradiction kb .father x y = true := by
      simp [hasContradiction, h]
    simp [process_input, check_contradiction, hc]
  · have hc : hasContradiction kb .mother x y = true := by
      simp [hasContradiction, h]
    simp [process_input, check_contradiction, hc]

/-- Witness for C4's amended statement: with two parents of c recorded, a
father assertion is rejected and the store is unchanged. -/
theorem C4_amended_witness :
    process_input ⟨[("a", "c"), ("b", "c")], [], []⟩ .father ["f", "c"] none =
      (some .impossible, ⟨[("a", "c"), ("b", "c")], [], []⟩) :=
  (C4_amended _ "f" "c").1 (by decide) |>.1

/-- C5: a `father` or `mother` assertion about the pair (x, y) is
rejected, with the store unchanged, whenever `child(x,y)`, `sibling(x,y)`
or `descendant(x,y)` (i.e. `ancestor(y,x)`) is already derivable; this
subsumes Scenario 3 (`father(bob,alice)` after `parent(alice,bob)`). -/
theorem C5_cross_relation_exclusivity (kb : KB) (r : Rel) (x y : String)
    (hr : r = Rel.father ∨ r = Rel.mother)
    (h : childB kb x y = true ∨ siblingB kb x y = true ∨ Ancestor kb y x) :
    process_input kb r [x, y] none = (some .impossible, kb) := by
  have hone : childB kb x y = true ∨ siblingB kb x y = true ∨ descendantB kb x y = true := by
    rcases h with h | h | h
    · exact Or.inl h
    · exact Or.inr (Or.inl h)
    · exact Or.inr (Or.inr (ancestor_complete h))
  have hc : hasContradiction kb r x y = true := by
    rcases hr with rfl | rfl <;> rcases hone with h1 | h1 | h1 <;>
      simp [hasContradiction, h1]
  simp [process_input, check_contradiction, hc]

/-- Witness for C5 at Scenario 3: with `parent(alice,bob)` recorded,
asserting `father(bob,alice)` is rejected. -/
theorem C5_witness :
    process_input ⟨[("alice", "bob")], [], []⟩ .father ["bob", "alice"] none =
      (some .impossible, ⟨[("alice", "bob")], [], []⟩) :=
  C5_cross_relation_exclusivity _ _ _ _ (Or.inl rfl) (Or.inl (by decide))

/-- C6 counterexample: a `brother` assertion with no common parent
recorded and no supplementary information is nevertheless accepted, and
it commits the gender fact — refuting the claim that brother/sister
assertions without a common parent are rejected with nothing committed. -/
theorem C6_counterexample :
    process_input ⟨[], [], []⟩ .brother ["b", "s"] none =
      (some .learned, ⟨[], ["b"], []⟩) := by decide

/-- C6 as amended: only the `siblings` relation requires a common parent
— with no recorded common parent and no supplementary answer it is
answered "That's impossible!" with nothing committed — while `brother`
(and symmetrically `sister`) assertions are accepted without any
common-parent requirement, committing only the gender fact. -/
theorem C6_amended :
    (∀ (kb : KB) (s1 s2 : String),
      (parentsOf kb s1).any (fun a => decide (a ∈ parentsOf kb s2)) = false →
      process_input kb .siblings [s1, s2] none = (some .impossible, kb)) ∧
    (∀ (kb : KB) (b s : String), b ≠ s →
      parentB kb s b = false → parentB kb b s = false →
      process_input kb .brother [b, s] none = (some .learned, addMale kb b)) := by
  constructor
  · intro kb s1 s2 hcom
    by_cases hss : s1 = s2
    · subst hss
      simp [process_input, check_contradiction, hasContradiction]
    · have hc : hasContradiction kb .siblings s1 s2 = false := by
        simp [hasContradiction, hss]
      simp [process_input, check_contradiction, hc, add_fact, hcom]
  · intro kb b s hbs h1 h2
    have hc : hasContradiction kb .brother b s = false := by
      simp [hasContradiction, hbs, childB, h1, h2]
    simp [process_input, check_contradiction, hc, add_fact]

/-- Witness for C6's amended statement: a `siblings` assertion on the
empty store is rejected. -/
theorem C6_amended_witness :
    process_input ⟨[], [], []⟩ .siblings ["s1", "s2"] none =
      (some .impossible, ⟨[], [], []⟩) :=
  C6_amended.1 _ "s1" "s2" (by decide)

/-- C7: the claim (and the spec rule) say `grandmother(GM,C)` holds iff
`grandparent(GM,C) ∧ female(GM)`.  The hardcoded rule binds a fresh
variable `GF` in the body (`grandmother(GM,C) :- grandparent(GF,C),
female(GM)`), so in the store parent(g,p), parent(p,c), female(a) the
unrelated female a is derived as a grandmother of c even though
`grandparent(a,c)` is false — evaluating the code at the failing input. -/
theorem C7_grandmother_rule_bug :
    grandmotherB ⟨[("g", "p"), ("p", "c")], [], ["a"]⟩ "a" "c" = true ∧
    grandparentB ⟨[("g", "p"), ("p", "c")], [], ["a"]⟩ "a" "c" = false ∧
    grandfatherB ⟨[("g", "p"), ("p", "c")], ["g"], []⟩ "g" "c" = true := by decide

/-- C8: the claim says a checked, derivable `aunt(A,N)` assertion records
`female(A)` and returns acceptance.  The `uncle` branch does behave this
way, but the `aunt` branch references the undefined variable `uncle`, so
its `assertz` raises a `NameError`, the blanket `except` returns the
"Error adding fact" string, and nothing is recorded — evaluated here at a
store where the aunt/uncle relation is derivable and the checker passes. -/
theorem C8_aunt_branch_error :
    (uncleB ⟨[("q", "u"), ("q", "p"), ("p", "n")], ["u"], []⟩ "u" "n" = true ∧
      process_input ⟨[("q", "u"), ("q", "p"), ("p", "n")], ["u"], []⟩ .uncle ["u", "n"] none =
        (some .learned, ⟨[("q", "u"), ("q", "p"), ("p", "n")], ["u", "u"], []⟩)) ∧
    (auntB ⟨[("q", "a"), ("q", "p"), ("p", "n")], [], ["a"]⟩ "a" "n" = true ∧
      process_input ⟨[("q", "a"), ("q", "p"), ("p", "n")], [], ["a"]⟩ .aunt ["a", "n"] none =
        (some .addError, ⟨[("q", "a"), ("q", "p"), ("p", "n")], [], ["a"]⟩)) := by decide

/-- C9: any assertion carrying three or more names (the `parents_of` and
`children_of` statements) makes `check_contradiction` raise on unpacking
`x, y = names`, so `process_input` surfaces an exception (reply `none`,
neither acceptance nor rejection) and commits nothing. -/
theorem C9_arity_exception (kb : KB) (r : Rel) (names : List String)
    (supp : Option String) (h : 3 ≤ names.length) :
    process_input kb r names supp = (none, kb) := by
  rcases names with _ | ⟨a, _ | ⟨b, _ | ⟨c, t⟩⟩⟩
  · simp only [List.length_nil] at h; omega
  · simp only [List.length_cons, List.length_nil] at h; omega
  · simp only [List.length_cons, List.length_nil] at h; omega
  · rfl

/-- Witness for C9: a `parents_of` assertion with its three names. -/
theorem C9_witness :
    process_input ⟨[], [], []⟩ .parents_of ["a", "b", "c"] none = (none, ⟨[], [], []⟩) :=
  C9_arity_exception _ _ _ _ (by decide)

/-- C10 counterexample: in the store parent(g,x), parent(x,g) — reachable
through accepted `child` and `siblings` assertions — `grandparent(g,g)`
is derivable, yet asserting `grandmother(g,g)` is rejected by the
checker's self-relationship rule, refuting the "accepted if and only if
grandparent is derivable" claim. -/
theorem C10_counterexample :
    grandparentB ⟨[("g", "x"), ("x", "g")], [], []⟩ "g" "g" = true ∧
    process_input ⟨[("g", "x"), ("x", "g")], [], []⟩ .grandmother ["g", "g"] none =
      (some .impossible, ⟨[("g", "x"), ("x", "g")], [], []⟩) := by decide

/-- C10 as amended: a `grandmother(G,C)` (resp. `grandfather`) assertion
is accepted iff `G ≠ C` and `grandparent(G,C)` is already derivable (the
self-relationship check additionally rejects `G = C`); on acceptance only
the gender fact is appended and otherwise the store is unchanged — in
particular the parent graph is never touched. -/
theorem C10_amended (kb : KB) (g c : String) :
    process_input kb .grandmother [g, c] none =
      (if g ≠ c ∧ grandparentB kb g c = true then (some .learned, addFemale kb g)
       else (some .impossible, kb)) ∧
    process_input kb .grandfather [g, c] none =
      (if g ≠ c ∧ grandparentB kb g c = true then (some .learned, addMale kb g)
       else (some .impossible, kb)) := by
  constructor
  · by_cases hgc : g = c
    · subst hgc
      simp [process_input, check_contradiction, hasContradiction]
    · have hc : hasContradiction kb .grandmother g c = false := by
        simp [hasContradiction, hgc]
      by_cases hgp : grandparentB kb g c = true
      · simp [process_input, check_contradiction, hc, add_fact, hgp, hgc]
      · simp [process_input, check_contradiction, hc, add_fact,
          Bool.not_eq_true _ ▸ hgp, hgc, hgp]
  · by_cases hgc : g = c
    · subst hgc
      simp [process_input, check_contradiction, hasContradiction]
    · have hc : hasContradiction kb .grandfather g c = false := by
        simp [hasContradiction, hgc]
      by_cases hgp : grandparentB kb g c = true
      · simp [process_input, check_contradiction, hc, add_fact, hgp, hgc]
      · simp [process_input, check_contradiction, hc, add_fact,
          Bool.not_eq_true _ ▸ hgp, hgc, hgp]

end FamilyBot
